import Mathlib

/-!
Verification of the duplicate-URL-slug detection core of
`fanpay/find-duplicates-url-slug`.

The definitions below are a shallow embedding of the TypeScript sources
`src/services/search.ts`, `src/services/api.ts` and `src/config/index.ts`.
JavaScript `Map` objects and plain objects used as string-keyed records are
modelled as insertion-ordered association lists (`List (String × _)`), which
matches `Map` iteration order exactly and `Object.entries` order for
non-numeric string keys (the only kind this program uses for codenames).
Optional string fields (`string | undefined`) are modelled as `Option String`;
JavaScript truthiness on such a value (`undefined` and `""` are falsy) is
modelled by `truthy`/`nval` below.  The external fetch collaborators are
modelled at the boundary: each strategy or fetch outcome is an explicit input
to the functions that consume it.
-/

/-- System metadata of a fetched content item (`item.system` in the SDK).
Fields are `Option String` so that the defensive `|| "Unknown"` defaults of
the source are observable. -/
structure SystemInfo where
  name : Option String
  codename : Option String
  itemType : Option String
  language : Option String
deriving DecidableEq, Repr

/-- The two slug-bearing elements of a page item (`item.elements`).
`none` models an absent element or an `undefined` value. -/
structure PageElements where
  url_slug : Option String
  slug : Option String
deriving DecidableEq, Repr

/-- A fetched page content item as consumed by the pipeline. -/
structure PageItem where
  system : SystemInfo
  elements : PageElements
deriving DecidableEq, Repr

/-- Normalize a `string | undefined` under JavaScript truthiness:
`undefined` and `""` are falsy, anything else keeps its value. -/
def nval : Option String → Option String
  | none => none
  | some s => if s = "" then none else some s

/-- JavaScript truthiness of a `string | undefined` value. -/
def truthy (o : Option String) : Bool := (nval o).isSome

/-- `x || d` for a `string | undefined` `x` and a truthy default `d`. -/
def strOr (o : Option String) (d : String) : String := ((nval o).getD d)

/-- The slug selected for an item, mirroring
`item.elements.url_slug?.value || item.elements.slug?.value` followed by the
`if (!slug) continue` truthiness filter in `buildSlugMap`
(src/services/search.ts:160-161): the primary field wins when truthy,
otherwise the secondary field when truthy, otherwise no slug. -/
def selectSlug (e : PageElements) : Option String :=
  match nval e.url_slug with
  | some v => some v
  | none => nval e.slug

/-- The fetcher-side filter
`item.elements.url_slug?.value || item.elements.slug?.value`
(src/services/search.ts:131-133). -/
def hasSlug (i : PageItem) : Bool :=
  truthy i.elements.url_slug || truthy i.elements.slug

/-- The flat record pushed into the slug map for one item
(src/services/search.ts:167-172). -/
structure SlugRecord where
  name : String
  codename : String
  language : String
  slugField : String
deriving DecidableEq, Repr

/-- Dummy record used only for the (unreachable) head of an empty group,
where the source would access `languageItems[0]`. -/
def defaultRecord : SlugRecord := ⟨"", "", "", ""⟩

/-- Record built for one item inside `buildSlugMap`
(src/services/search.ts:167-172). -/
def mkSlugRecord (item : PageItem) : SlugRecord :=
  { name := strOr item.system.name "Unknown"
    codename := strOr item.system.codename "unknown"
    language := strOr item.system.language "unknown"
    slugField := if truthy item.elements.url_slug then "url_slug" else "slug" }

/-- The slug index: a JavaScript `Map` from slug to its record list, as an
insertion-ordered association list. -/
abbrev SlugIndex := List (String × List SlugRecord)

/-- `if (!m.has(k)) m.set(k, []); m.get(k).push(r)` on an insertion-ordered
map: append `r` to the list at `k`, creating the entry at the end of the map
on first encounter. -/
def insertRecord (m : SlugIndex) (k : String) (r : SlugRecord) : SlugIndex :=
  match m with
  | [] => [(k, [r])]
  | (k₂, rs) :: rest =>
    if k₂ = k then (k₂, rs ++ [r]) :: rest else (k₂, rs) :: insertRecord rest k r

/-- `m.get(k)` with a missing key reading as the empty list. -/
def lookupD (m : SlugIndex) (k : String) : List SlugRecord :=
  match m with
  | [] => []
  | (k₂, rs) :: rest => if k₂ = k then rs else lookupD rest k

/-- `buildSlugMap` (src/services/search.ts:146-176): one pass over the items,
skipping items whose selected slug is falsy, appending each record to the
list keyed by its slug. -/
def buildSlugMap (items : List PageItem) : SlugIndex :=
  items.foldl
    (fun m item =>
      match selectSlug item.elements with
      | none => m
      | some slug => insertRecord m slug (mkSlugRecord item))
    []

/-- `new Set(items.map(item => item.codename))` as an insertion-ordered
duplicate-free list (src/services/search.ts:189). -/
def uniqueCodenames (rs : List SlugRecord) : List String :=
  rs.foldl (fun acc r => if r.codename ∈ acc then acc else acc ++ [r.codename]) []

/-- One summary row per entity as displayed (src/services/search.ts:215-220).
`language` is the joined display string of the group's language tags. -/
structure EntitySummary where
  name : String
  codename : String
  language : String
  slugField : String
deriving DecidableEq, Repr

/-- A reported duplicate slug with its per-entity summaries
(src/services/search.ts:192-195). -/
structure DuplicateGroup where
  slug : String
  items : List EntitySummary
deriving DecidableEq, Repr

/-- `items.reduce(...)` grouping records by codename into an
insertion-ordered string-keyed record (src/services/search.ts:207-213). -/
def groupByCodename (items : List SlugRecord) : SlugIndex :=
  items.foldl (fun acc item => insertRecord acc item.codename item) []

/-- The summary synthesized for one codename group
(src/services/search.ts:215-220): `name` and `slugField` from the first
record of the group, `language` the comma-joined language tags of all its
records. -/
def mkEntitySummary (p : String × List SlugRecord) : EntitySummary :=
  { name := (p.2.headD defaultRecord).name
    codename := p.1
    language := String.intercalate ", " (p.2.map SlugRecord.language)
    slugField := (p.2.headD defaultRecord).slugField }

/-- `groupItemsByCodename` (src/services/search.ts:201-221). -/
def groupItemsByCodename (items : List SlugRecord) : List EntitySummary :=
  (groupByCodename items).map mkEntitySummary

/-- One filtered-and-mapped entry of `findTrueDuplicates`. -/
def mkDuplicateGroup (p : String × List SlugRecord) : DuplicateGroup :=
  { slug := p.1, items := groupItemsByCodename p.2 }

/-- `findTrueDuplicates` (src/services/search.ts:181-196): keep the map
entries whose records span more than one distinct codename, in map iteration
order, and group each for display. -/
def findTrueDuplicates (slugMap : SlugIndex) : List DuplicateGroup :=
  (slugMap.filter (fun p => decide (1 < (uniqueCodenames p.2).length))).map
    mkDuplicateGroup

/-- A formatted content record as produced by `formatSDKItem`
(src/services/api.ts). -/
structure ContentItem where
  name : String
  codename : String
  itemType : String
  language : String
  slug : String
  slugField : String
deriving DecidableEq, Repr

/-- `formatSDKItem` (src/services/api.ts:423-435): slug is the first truthy
candidate among `url_slug`, `slug`, else the literal "No slug"; `slugField`
records whether the primary field was truthy. -/
def formatSDKItem (item : PageItem) (language : String) : ContentItem :=
  { name := strOr item.system.name "Unknown"
    codename := strOr item.system.codename "Unknown"
    itemType := strOr item.system.itemType "page"
    language := language
    slug := (selectSlug item.elements).getD "No slug"
    slugField := if truthy item.elements.url_slug then "url_slug" else "slug" }

/-- The global application configuration (src/config/index.ts:9-15). -/
structure AppConfig where
  projectId : String
  deliveryApiKey : String
  managementApiKey : String
  languages : List String
  defaultLanguage : String
deriving DecidableEq, Repr

/-- `isConfigValid` (src/config/index.ts:233-235): `Boolean(projectId)`. -/
def isConfigValid (c : AppConfig) : Bool := c.projectId ≠ ""

/-- The result shape returned by one search strategy (the `ApiResult` of
src/types, with the fields the core reads and writes). -/
structure ApiResult where
  success : Bool
  items : List ContentItem
  method : String
  error : Option String := none
  note : Option String := none
deriving DecidableEq, Repr

/-- `createErrorResult` (src/services/api.ts:452-459). -/
def createErrorResult (message method : String) : ApiResult :=
  { success := false, items := [], error := some message, method := method }

/-- `searchWithManagementApi` (src/services/api.ts:408-418): an unimplemented
placeholder that always succeeds with zero items. -/
def searchWithManagementApi (_targetSlug : String) : ApiResult :=
  { success := true
    items := []
    method := "management-api"
    note := some "Management API integration would require @kontent-ai/management-sdk for full implementation" }

/-- `keyEq` is the deduplication key comparison
`i.codename === item.codename && i.language === item.language`
(src/services/search.ts:242-244). -/
def keyEq (a b : ContentItem) : Bool :=
  a.codename == b.codename && a.language == b.language

/-- Traversal underlying `removeDuplicateItems`: `ys` is the remaining
suffix, `i` its starting index in the original array `full`; an element is
kept exactly when its index equals `full.findIndex` of its key, i.e. the
source's `filter((item, index, self) => index === self.findIndex(...))`. -/
def removeDupAux (full : List ContentItem) : List ContentItem → Nat → List ContentItem
  | [], _ => []
  | x :: xs, i =>
    if full.findIdx (fun y => keyEq y x) = i then x :: removeDupAux full xs (i + 1)
    else removeDupAux full xs (i + 1)

/-- `removeDuplicateItems` (src/services/search.ts:239-246): keep each item
whose index is the first index carrying its (codename, language) key. -/
def removeDuplicateItems (items : List ContentItem) : List ContentItem :=
  removeDupAux items items 0

/-- The combined result of `searchSpecificSlug`
(src/services/search.ts:51-59), carrying the per-strategy sub-results for
diagnostics; the failure branches leave the sub-result fields unset. -/
structure CombinedResult where
  success : Bool
  items : List ContentItem
  method : String
  error : Option String := none
  deliveryApi : Option ApiResult := none
  deliveryApiAllItems : Option ApiResult := none
  managementApi : Option ApiResult := none
  totalItems : Option Nat := none
deriving DecidableEq, Repr

/-- `searchSpecificSlug` (src/services/search.ts:19-68).  The two delivery
strategies are external calls whose outcomes are passed in; the management
strategy is invoked inside, guarded by the truthiness of
`appConfig.managementApiKey`.  On invalid configuration the function returns
a failure result before any strategy runs (modelled by independence from the
strategy arguments). -/
def searchSpecificSlug (cfg : AppConfig) (targetSlug : String)
    (deliveryApi deliveryApiAllItems : ApiResult) : CombinedResult :=
  if ¬ isConfigValid cfg then
    { success := false
      items := []
      error := some "Missing Kontent.ai Project ID configuration. Click \"Show Config\" to verify settings."
      method := "none" }
  else
    let managementApi :=
      if cfg.managementApiKey ≠ "" then some (searchWithManagementApi targetSlug)
      else none
    let allItems :=
      deliveryApi.items ++ deliveryApiAllItems.items ++
        (match managementApi with
         | some r => r.items
         | none => [])
    let uniqueItems := removeDuplicateItems allItems
    { success := true
      items := uniqueItems
      method := "combined-sdk"
      deliveryApi := some deliveryApi
      deliveryApiAllItems := some deliveryApiAllItems
      managementApi := managementApi
      totalItems := some uniqueItems.length }

/-- The `DuplicateResult` shape returned by `findDuplicateSlugs`. -/
structure DuplicateResult where
  duplicates : List DuplicateGroup
  totalItems : Option Nat := none
  uniqueSlugs : Option Nat := none
  error : Option String := none
deriving DecidableEq, Repr

/-- `fetchAllPageItemsWithSlugs` (src/services/search.ts:109-141): the fetch
collaborator is a function from a language to its (fully paginated) item
list; each per-language batch is filtered to slug-bearing items and the
batches are concatenated in language order. -/
def fetchAllPageItemsWithSlugs (langs : List String)
    (fetch : String → List PageItem) : List PageItem :=
  (langs.map (fun l => (fetch l).filter hasSlug)).flatten

/-- `findDuplicateSlugs` (src/services/search.ts:74-104).  `fetched` is the
outcome of the awaited fetch: a raising fetch lands in the `catch` branch and
produces an error result; a successful fetch feeds the pipeline. -/
def findDuplicateSlugs (cfg : AppConfig)
    (fetched : Except String (List PageItem)) : DuplicateResult :=
  if ¬ isConfigValid cfg then
    { duplicates := []
      error := some "Missing Kontent.ai Project ID configuration. Click \"Show Config\" to verify settings." }
  else
    match fetched with
    | Except.error msg =>
      { duplicates := [], error := some ("Unexpected error: " ++ msg) }
    | Except.ok allItems =>
      let slugMap := buildSlugMap allItems
      let duplicates := findTrueDuplicates slugMap
      { duplicates := duplicates
        totalItems := some allItems.length
        uniqueSlugs := some slugMap.length }

/-! Concrete fixtures used by witness and counterexample theorems. -/

/-- A valid example configuration. -/
def exCfg : AppConfig :=
  { projectId := "proj-1", deliveryApiKey := "", managementApiKey := "mk"
    languages := ["en"], defaultLanguage := "en" }

/-- A configuration with the required project identifier missing. -/
def exCfgInvalid : AppConfig :=
  { projectId := "", deliveryApiKey := "", managementApiKey := ""
    languages := [], defaultLanguage := "en" }

/-- Fetched page item: entity `article_a`, slug "contact", language en. -/
def exItemA : PageItem :=
  { system := { name := some "Article A", codename := some "article_a"
                itemType := some "page", language := some "en" }
    elements := { url_slug := some "contact", slug := none } }

/-- Fetched page item: entity `article_b`, slug "contact", language en. -/
def exItemB : PageItem :=
  { system := { name := some "Article B", codename := some "article_b"
                itemType := some "page", language := some "en" }
    elements := { url_slug := some "contact", slug := none } }

/-- Fetched page item: empty primary slug field, secondary slug "home". -/
def exItemC : PageItem :=
  { system := { name := some "Home", codename := some "home_page"
                itemType := some "page", language := some "en" }
    elements := { url_slug := some "", slug := some "home" } }

/-- Formatted content item with key (a, en), found via the primary field. -/
def exCI1 : ContentItem :=
  { name := "A", codename := "a", itemType := "page", language := "en"
    slug := "contact", slugField := "url_slug" }

/-- Same key (a, en) as `exCI1` but different slug-field provenance. -/
def exCI2 : ContentItem :=
  { name := "A", codename := "a", itemType := "page", language := "en"
    slug := "contact", slugField := "slug" }

/-- Formatted content item with key (b, en). -/
def exCI3 : ContentItem :=
  { name := "B", codename := "b", itemType := "page", language := "en"
    slug := "contact", slugField := "url_slug" }

/-- A succeeding strategy result carrying `exCI3`. -/
def exOk : ApiResult :=
  { success := true, items := [exCI3], method := "delivery-sdk" }

/-! Theorems. -/

/-- Claim C7: with a valid configuration and the fetch yielding zero items
for every configured language, `findDuplicateSlugs` returns exactly the
successful empty result: no duplicates, `totalItems = 0`, `uniqueSlugs = 0`,
and no error field set. -/
theorem findDuplicateSlugs_empty_success (cfg : AppConfig) (langs : List String)
    (fetch : String → List PageItem)
    (hcfg : isConfigValid cfg = true)
    (h : ∀ l ∈ langs, fetch l = []) :
    findDuplicateSlugs cfg (Except.ok (fetchAllPageItemsWithSlugs langs fetch)) =
      { duplicates := [], totalItems := some 0, uniqueSlugs := some 0, error := none } := by
  have hempty : fetchAllPageItemsWithSlugs langs fetch = [] := by
    unfold fetchAllPageItemsWithSlugs
    rw [List.flatten_eq_nil_iff]
    intro l hl
    rcases List.mem_map.mp hl with ⟨lang, hlang, rfl⟩
    rw [h lang hlang]
    rfl
  rw [hempty]
  simp [findDuplicateSlugs, hcfg, buildSlugMap, findTrueDuplicates]

/-- Closed instance of `findDuplicateSlugs_empty_success` at a concrete
configuration and fetch. -/
theorem findDuplicateSlugs_empty_success_witness :
    findDuplicateSlugs exCfg
        (Except.ok (fetchAllPageItemsWithSlugs ["en", "de"] (fun _ => []))) =
      { duplicates := [], totalItems := some 0, uniqueSlugs := some 0, error := none } :=
  findDuplicateSlugs_empty_success exCfg ["en", "de"] (fun _ => [])
    (by decide) (by intro l _; rfl)

/-- Claim C8: with the required project identifier missing, both entry
points fail immediately: their results do not depend on any fetch or
strategy outcome (no fetch is consulted), the duplicates and items lists are
empty, `success` is false for the search entry point, and an error is set. -/
theorem invalidConfig_no_fetch (cfg : AppConfig) (h : cfg.projectId = "") :
    (∀ f g : Except String (List PageItem),
        findDuplicateSlugs cfg f = findDuplicateSlugs cfg g) ∧
    (∀ f : Except String (List PageItem),
        (findDuplicateSlugs cfg f).duplicates = [] ∧
        (findDuplicateSlugs cfg f).error.isSome = true) ∧
    (∀ (slug : String) (r₁ r₂ r₃ r₄ : ApiResult),
        searchSpecificSlug cfg slug r₁ r₂ = searchSpecificSlug cfg slug r₃ r₄) ∧
    (∀ (slug : String) (r₁ r₂ : ApiResult),
        (searchSpecificSlug cfg slug r₁ r₂).success = false ∧
        (searchSpecificSlug cfg slug r₁ r₂).items = [] ∧
        (searchSpecificSlug cfg slug r₁ r₂).error.isSome = true) := by
  have hinv : isConfigValid cfg = false := by simp [isConfigValid, h]
  refine ⟨?_, ?_, ?_, ?_⟩ <;> intros <;>
    simp [findDuplicateSlugs, searchSpecificSlug, hinv]

/-- Closed instance of `invalidConfig_no_fetch` at a concrete invalid
configuration, fetch outcome and strategy results. -/
theorem invalidConfig_no_fetch_witness :
    (findDuplicateSlugs exCfgInvalid (Except.ok [exItemA])).duplicates = [] ∧
    (searchSpecificSlug exCfgInvalid "contact" exOk exOk).success = false :=
  ⟨((invalidConfig_no_fetch exCfgInvalid rfl).2.1 (Except.ok [exItemA])).1,
   ((invalidConfig_no_fetch exCfgInvalid rfl).2.2.2 "contact" exOk exOk).1⟩

/-- Claim C10: the management-API strategy is an unimplemented placeholder:
it always returns success with an empty item list, so under a valid
configuration the merged item list is exactly the deduplicated concatenation
of the two delivery strategies; the management sub-result is recorded only
when a management API key is configured. -/
theorem managementApi_placeholder :
    (∀ slug : String,
        (searchWithManagementApi slug).success = true ∧
        (searchWithManagementApi slug).items = []) ∧
    (∀ (cfg : AppConfig) (slug : String) (r₁ r₂ : ApiResult),
        isConfigValid cfg = true →
        (searchSpecificSlug cfg slug r₁ r₂).items =
          removeDuplicateItems (r₁.items ++ r₂.items) ∧
        (searchSpecificSlug cfg slug r₁ r₂).managementApi =
          (if cfg.managementApiKey ≠ "" then some (searchWithManagementApi slug)
           else none)) := by
  constructor
  · intro slug
    exact ⟨rfl, rfl⟩
  · intro cfg slug r₁ r₂ hcfg
    by_cases hk : cfg.managementApiKey = "" <;>
      simp [searchSpecificSlug, hcfg, hk, searchWithManagementApi]

/-- Closed instance of `managementApi_placeholder` at a concrete slug,
configuration and strategy results. -/
theorem managementApi_placeholder_witness :
    (searchWithManagementApi "contact").items = [] ∧
    (searchSpecificSlug exCfg "contact" exOk exOk).items =
      removeDuplicateItems (exOk.items ++ exOk.items) :=
  ⟨(managementApi_placeholder.1 "contact").2,
   (managementApi_placeholder.2 exCfg "contact" exOk exOk (by decide)).1⟩

/-! Lemmas about the index-based deduplication of `removeDuplicateItems`. -/

theorem keyEq_iff (a b : ContentItem) :
    keyEq a b = true ↔ a.codename = b.codename ∧ a.language = b.language := by
  simp [keyEq]

theorem keyEq_refl (a : ContentItem) : keyEq a a = true := by
  simp [keyEq]

theorem keyEq_symm (a b : ContentItem) : keyEq a b = keyEq b a := by
  rw [Bool.eq_iff_iff, keyEq_iff, keyEq_iff]
  constructor
  · rintro ⟨h₁, h₂⟩
    exact ⟨h₁.symm, h₂.symm⟩
  · rintro ⟨h₁, h₂⟩
    exact ⟨h₁.symm, h₂.symm⟩

/-- Prepending an element to the array shifts every index by one: the
traversal of the remaining suffix keeps exactly the elements it kept before,
minus those sharing the new head's key. -/
theorem removeDupAux_shift (x : ContentItem) (xs ys : List ContentItem) (n : Nat) :
    removeDupAux (x :: xs) ys (n + 1) =
      (removeDupAux xs ys n).filter (fun y => !(keyEq y x)) := by
  induction ys generalizing n with
  | nil => rfl
  | cons y ys ih =>
    by_cases hxy : keyEq x y = true
    · have hyx : keyEq y x = true := by rw [keyEq_symm]; exact hxy
      have hfind : (x :: xs).findIdx (fun z => keyEq z y) = 0 := by
        rw [List.findIdx_cons, hxy]
        rfl
      by_cases hn : xs.findIdx (fun z => keyEq z y) = n
      · simp [removeDupAux, hfind, hn, hyx, ih, Nat.succ_ne_zero]
      · simp [removeDupAux, hfind, hn, hyx, ih, Nat.succ_ne_zero]
    · have hyx : keyEq y x = false := by
        rw [keyEq_symm] at hxy
        exact Bool.not_eq_true _ ▸ (Bool.eq_false_iff.mpr hxy)
      have hfind : (x :: xs).findIdx (fun z => keyEq z y) =
          xs.findIdx (fun z => keyEq z y) + 1 := by
        rw [List.findIdx_cons]
        cases h : keyEq x y with
        | true => exact absurd h hxy
        | false => rfl
      by_cases hn : xs.findIdx (fun z => keyEq z y) = n
      · simp [removeDupAux, hfind, hn, hyx, ih]
      · have hne : ¬ (xs.findIdx (fun z => keyEq z y) + 1 = n + 1) := by
          omega
        simp [removeDupAux, hfind, hn, hne, hyx, ih]

/-- Head-recurrence of `removeDuplicateItems`: the head always survives, and
the deduplicated tail loses every element sharing the head's key. -/
theorem removeDuplicateItems_cons (x : ContentItem) (xs : List ContentItem) :
    removeDuplicateItems (x :: xs) =
      x :: (removeDuplicateItems xs).filter (fun y => !(keyEq y x)) := by
  unfold removeDuplicateItems
  have hfind : (x :: xs).findIdx (fun z => keyEq z x) = 0 := by
    rw [List.findIdx_cons, keyEq_refl]
    rfl
  show removeDupAux (x :: xs) (x :: xs) 0 = _
  rw [removeDupAux, hfind]
  simp only [if_pos rfl]
  exact congrArg (x :: ·) (removeDupAux_shift x xs xs 0)

/-- Every (codename, language) key present in the input is still present in
the deduplicated output. -/
theorem removeDuplicateItems_key_mem (l : List ContentItem) (x : ContentItem)
    (hx : x ∈ l) :
    ∃ y ∈ removeDuplicateItems l,
      y.codename = x.codename ∧ y.language = x.language := by
  induction l with
  | nil => cases hx
  | cons z zs ih =>
    rw [removeDuplicateItems_cons]
    by_cases hz : keyEq x z = true
    · rcases (keyEq_iff x z).mp hz with ⟨h₁, h₂⟩
      exact ⟨z, List.mem_cons_self _ _, h₁.symm, h₂.symm⟩
    · rcases List.mem_cons.mp hx with rfl | hxs
      · exact absurd (keyEq_refl x) hz
      · rcases ih hxs with ⟨y, hy, hyc, hyl⟩
        by_cases hyz : keyEq y z = true
        · rcases (keyEq_iff y z).mp hyz with ⟨h₁, h₂⟩
          exact ⟨z, List.mem_cons_self _ _, h₁ ▸ hyc, h₂ ▸ hyl⟩
        · refine ⟨y, List.mem_cons_of_mem _ ?_, hyc, hyl⟩
          rw [List.mem_filter]
          refine ⟨hy, ?_⟩
          have hk : keyEq y z = false := by
            cases hkk : keyEq y z with
            | false => rfl
            | true => exact absurd hkk hyz
          rw [hk]
          rfl

/-- Finding under a filter that never discards a matching element is the
same as finding in the unfiltered list. -/
theorem find?_filter_of_imp (p q : ContentItem → Bool) (l : List ContentItem)
    (h : ∀ a, p a = true → q a = true) :
    (l.filter q).find? p = l.find? p := by
  induction l with
  | nil => rfl
  | cons x xs ih =>
    cases hp : p x with
    | true =>
      have hq := h x hp
      simp [List.filter_cons, hq, hp]
    | false =>
      cases hq : q x with
      | true => simp [List.filter_cons, hq, hp, ih]
      | false => simp [List.filter_cons, hq, hp, ih]

/-- Claim C5: deduplication is idempotent on the key (codename, language):
whenever the concatenated strategy output contains at least one record with
a given key, the deduplicated list contains exactly one record with that
key, and it is the first such record in concatenation order, regardless of
the colliding records' other fields. -/
theorem removeDuplicateItems_key_idempotent (items : List ContentItem)
    (c l : String) (h : ∃ a ∈ items, a.codename = c ∧ a.language = l) :
    (removeDuplicateItems items).countP
        (fun i => i.codename == c && i.language == l) = 1 ∧
    (removeDuplicateItems items).find?
        (fun i => i.codename == c && i.language == l) =
      items.find? (fun i => i.codename == c && i.language == l) := by
  induction items with
  | nil =>
    rcases h with ⟨a, ha, _⟩
    cases ha
  | cons x xs ih =>
    rw [removeDuplicateItems_cons]
    by_cases hx : (x.codename == c && x.language == l) = true
    · have hx' := hx
      rw [Bool.and_eq_true] at hx'
      rcases hx' with ⟨hc, hl⟩
      rw [beq_iff_eq] at hc hl
      constructor
      · rw [List.countP_cons_of_pos
          (p := fun i : ContentItem => i.codename == c && i.language == l) _ hx]
        have hzero : ((removeDuplicateItems xs).filter
            (fun y => !(keyEq y x))).countP
            (fun i => i.codename == c && i.language == l) = 0 := by
          rw [List.countP_filter, List.countP_eq_zero]
          intro a _ hpa
          rw [Bool.and_eq_true] at hpa
          rcases hpa with ⟨hpa1, hpa2⟩
          rw [Bool.and_eq_true] at hpa1
          rcases hpa1 with ⟨hac, hal⟩
          rw [beq_iff_eq] at hac hal
          have hkey : keyEq a x = true :=
            (keyEq_iff a x).mpr ⟨by rw [hac, hc], by rw [hal, hl]⟩
          rw [hkey] at hpa2
          simp at hpa2
        rw [hzero]
      · rw [List.find?_cons_of_pos
            (p := fun i : ContentItem => i.codename == c && i.language == l) _ hx,
          List.find?_cons_of_pos
            (p := fun i : ContentItem => i.codename == c && i.language == l) _ hx]
    · have hwit : ∃ a ∈ xs, a.codename = c ∧ a.language = l := by
        rcases h with ⟨a, ha, hac, hal⟩
        rcases List.mem_cons.mp ha with rfl | has
        · exact absurd (by rw [hac, hal]; simp) hx
        · exact ⟨a, has, hac, hal⟩
      have hkeep : ∀ y : ContentItem,
          (y.codename == c && y.language == l) = true →
          (!(keyEq y x)) = true := by
        intro y hy
        rw [Bool.and_eq_true] at hy
        rcases hy with ⟨hyc, hyl⟩
        rw [beq_iff_eq] at hyc hyl
        cases hk : keyEq y x with
        | false => rfl
        | true =>
          rcases (keyEq_iff y x).mp hk with ⟨h₁, h₂⟩
          exact absurd (by rw [← h₁, ← h₂, hyc, hyl]; simp) hx
      constructor
      · rw [List.countP_cons_of_neg
          (p := fun i : ContentItem => i.codename == c && i.language == l) _ hx,
          List.countP_filter]
        have hcongr : (removeDuplicateItems xs).countP
            (fun a => (a.codename == c && a.language == l) && !(keyEq a x)) =
            (removeDuplicateItems xs).countP
            (fun a => a.codename == c && a.language == l) :=
          List.countP_congr (fun a _ => by
            constructor
            · intro ha
              rw [Bool.and_eq_true] at ha
              exact ha.1
            · intro ha
              rw [Bool.and_eq_true]
              exact ⟨ha, hkeep a ha⟩)
        rw [hcongr]
        exact (ih hwit).1
      · rw [List.find?_cons_of_neg
            (p := fun i : ContentItem => i.codename == c && i.language == l) _ hx,
          List.find?_cons_of_neg
            (p := fun i : ContentItem => i.codename == c && i.language == l) _ hx,
          find?_filter_of_imp _ _ _ hkeep]
        exact (ih hwit).2

/-- Closed instance of `removeDuplicateItems_key_idempotent`: two records
sharing key (a, en) but differing in slug-field provenance collapse to
exactly one record, the first one. -/
theorem removeDuplicateItems_key_idempotent_witness :
    (removeDuplicateItems [exCI1, exCI2, exCI3]).countP
        (fun i => i.codename == "a" && i.language == "en") = 1 ∧
    (removeDuplicateItems [exCI1, exCI2, exCI3]).find?
        (fun i => i.codename == "a" && i.language == "en") =
      [exCI1, exCI2, exCI3].find?
        (fun i => i.codename == "a" && i.language == "en") :=
  removeDuplicateItems_key_idempotent [exCI1, exCI2, exCI3] "a" "en"
    ⟨exCI1, by decide, rfl, rfl⟩

/-- Under a valid configuration the merged result succeeds and its items are
the deduplicated concatenation of the two delivery strategies (the
management placeholder contributes nothing). -/
theorem searchSpecificSlug_items (cfg : AppConfig) (slug : String)
    (r₁ r₂ : ApiResult) (hcfg : isConfigValid cfg = true) :
    (searchSpecificSlug cfg slug r₁ r₂).items =
      removeDuplicateItems (r₁.items ++ r₂.items) ∧
    (searchSpecificSlug cfg slug r₁ r₂).success = true := by
  by_cases hk : cfg.managementApiKey = "" <;>
    simp [searchSpecificSlug, hcfg, hk, searchWithManagementApi]

/-- Claim C6: a failing strategy — its caught fetch failure surfaces as
`createErrorResult` — contributes an empty item list; the succeeding sibling
strategy's items still appear (per dedup key) in the merged result, and the
overall result has success = true, whichever of the two strategies failed. -/
theorem searchSpecificSlug_failure_isolated (cfg : AppConfig)
    (slug msg meth : String) (r : ApiResult)
    (hcfg : isConfigValid cfg = true) (hr : r.success = true) :
    (createErrorResult msg meth).items = [] ∧
    (searchSpecificSlug cfg slug (createErrorResult msg meth) r).success = true ∧
    (∀ x ∈ r.items,
        ∃ y ∈ (searchSpecificSlug cfg slug (createErrorResult msg meth) r).items,
          y.codename = x.codename ∧ y.language = x.language) ∧
    (searchSpecificSlug cfg slug r (createErrorResult msg meth)).success = true ∧
    (∀ x ∈ r.items,
        ∃ y ∈ (searchSpecificSlug cfg slug r (createErrorResult msg meth)).items,
          y.codename = x.codename ∧ y.language = x.language) := by
  have h₁ := searchSpecificSlug_items cfg slug (createErrorResult msg meth) r hcfg
  have h₂ := searchSpecificSlug_items cfg slug r (createErrorResult msg meth) hcfg
  refine ⟨rfl, h₁.2, ?_, h₂.2, ?_⟩
  · intro x hx
    rw [h₁.1]
    exact removeDuplicateItems_key_mem _ x
      (by rw [show (createErrorResult msg meth).items = [] from rfl,
        List.nil_append]; exact hx)
  · intro x hx
    rw [h₂.1]
    exact removeDuplicateItems_key_mem _ x
      (by rw [show (createErrorResult msg meth).items = [] from rfl,
        List.append_nil]; exact hx)

/-- Closed instance of `searchSpecificSlug_failure_isolated` with a concrete
failing strategy and a concrete succeeding sibling carrying one item. -/
theorem searchSpecificSlug_failure_isolated_witness :
    (searchSpecificSlug exCfg "contact"
        (createErrorResult "network failure" "delivery-sdk") exOk).success = true :=
  (searchSpecificSlug_failure_isolated exCfg "contact" "network failure"
    "delivery-sdk" exOk (by decide) rfl).2.1

/-! Lemmas about insertion-ordered maps and the grouping pipeline. -/

theorem lookupD_insertRecord_self (m : SlugIndex) (k : String) (r : SlugRecord) :
    lookupD (insertRecord m k r) k = lookupD m k ++ [r] := by
  induction m with
  | nil => simp [insertRecord, lookupD]
  | cons p rest ih =>
    obtain ⟨k₂, rs⟩ := p
    by_cases hk : k₂ = k
    · subst hk
      simp [insertRecord, lookupD]
    · simp [insertRecord, lookupD, hk, ih]

theorem lookupD_insertRecord_other (m : SlugIndex) (k k₃ : String)
    (r : SlugRecord) (h : k₃ ≠ k) :
    lookupD (insertRecord m k r) k₃ = lookupD m k₃ := by
  induction m with
  | nil => simp [insertRecord, lookupD, if_neg (Ne.symm h)]
  | cons p rest ih =>
    obtain ⟨k₂, rs⟩ := p
    by_cases hk : k₂ = k
    · subst hk
      simp [insertRecord, lookupD, if_neg (Ne.symm h)]
    · simp [insertRecord, lookupD, hk, ih]

theorem keys_insertRecord (m : SlugIndex) (k : String) (r : SlugRecord) :
    (insertRecord m k r).map Prod.fst =
      (if k ∈ m.map Prod.fst then m.map Prod.fst else m.map Prod.fst ++ [k]) := by
  induction m with
  | nil => simp [insertRecord]
  | cons p rest ih =>
    obtain ⟨k₂, rs⟩ := p
    by_cases hk : k₂ = k
    · subst hk
      simp [insertRecord]
    · simp only [insertRecord, if_neg hk, List.map_cons, ih]
      by_cases hmem : k ∈ rest.map Prod.fst
      · simp [hmem, Ne.symm hk]
      · simp [hmem, Ne.symm hk]

theorem assoc_lookupD_of_mem (m : SlugIndex) (k : String) (v : List SlugRecord)
    (hnd : (m.map Prod.fst).Nodup) (hm : (k, v) ∈ m) : lookupD m k = v := by
  induction m with
  | nil => cases hm
  | cons p rest ih =>
    obtain ⟨k₂, rs⟩ := p
    rw [List.map_cons, List.nodup_cons] at hnd
    rcases List.mem_cons.mp hm with heq | hmem
    · cases heq
      simp [lookupD]
    · have hk : k₂ ≠ k := by
        intro he
        subst he
        exact hnd.1 (List.mem_map.mpr ⟨(k₂, v), hmem, rfl⟩)
      simp only [lookupD, if_neg hk]
      exact ih hnd.2 hmem

theorem assoc_unique (m : SlugIndex) (k : String) (a b : List SlugRecord)
    (hnd : (m.map Prod.fst).Nodup) (ha : (k, a) ∈ m) (hb : (k, b) ∈ m) :
    a = b := by
  rw [← assoc_lookupD_of_mem m k a hnd ha, ← assoc_lookupD_of_mem m k b hnd hb]

theorem uniq_fold_nodup (rs : List SlugRecord) (acc : List String)
    (h : acc.Nodup) :
    (rs.foldl (fun ks r => if r.codename ∈ ks then ks else ks ++ [r.codename])
      acc).Nodup := by
  induction rs generalizing acc with
  | nil => exact h
  | cons r rs ih =>
    rw [List.foldl_cons]
    by_cases hm : r.codename ∈ acc
    · rw [if_pos hm]
      exact ih _ h
    · rw [if_neg hm]
      refine ih _ ?_
      rw [List.nodup_append]
      refine ⟨h, List.nodup_singleton _, ?_⟩
      intro a ha hb
      rw [List.mem_singleton] at hb
      subst hb
      exact hm ha

theorem uniq_fold_mem (rs : List SlugRecord) (acc : List String) (c : String) :
    (c ∈ rs.foldl (fun ks r => if r.codename ∈ ks then ks else ks ++ [r.codename])
      acc) ↔ c ∈ acc ∨ c ∈ rs.map SlugRecord.codename := by
  induction rs generalizing acc with
  | nil => simp
  | cons r rs ih =>
    rw [List.foldl_cons]
    by_cases hm : r.codename ∈ acc
    · rw [if_pos hm, ih, List.map_cons, List.mem_cons]
      constructor
      · rintro (h | h)
        · exact Or.inl h
        · exact Or.inr (Or.inr h)
      · rintro (h | h | h)
        · exact Or.inl h
        · exact Or.inl (h ▸ hm)
        · exact Or.inr h
    · rw [if_neg hm, ih, List.map_cons, List.mem_cons, List.mem_append,
        List.mem_singleton]
      tauto

theorem uniqueCodenames_nodup (rs : List SlugRecord) :
    (uniqueCodenames rs).Nodup :=
  uniq_fold_nodup rs [] List.nodup_nil

theorem uniqueCodenames_mem (rs : List SlugRecord) (c : String) :
    c ∈ uniqueCodenames rs ↔ c ∈ rs.map SlugRecord.codename := by
  rw [uniqueCodenames, uniq_fold_mem]
  simp

theorem uniqueCodenames_length (rs : List SlugRecord) :
    (uniqueCodenames rs).length = (rs.map SlugRecord.codename).toFinset.card := by
  have hfin : (uniqueCodenames rs).toFinset =
      (rs.map SlugRecord.codename).toFinset := by
    ext c
    simp [List.mem_toFinset, uniqueCodenames_mem]
  rw [← hfin, List.toFinset_card_of_nodup (uniqueCodenames_nodup rs)]

theorem lookupD_groupBy_fold (rs : List SlugRecord) (acc : SlugIndex) (c : String) :
    lookupD (rs.foldl (fun a r => insertRecord a r.codename r) acc) c =
      lookupD acc c ++ rs.filter (fun r => r.codename == c) := by
  induction rs generalizing acc with
  | nil => simp
  | cons r rs ih =>
    rw [List.foldl_cons, ih]
    by_cases hc : r.codename = c
    · rw [List.filter_cons_of_pos (by rw [hc]; exact beq_self_eq_true c)]
      rw [show insertRecord acc r.codename r = insertRecord acc c r from by rw [hc],
        lookupD_insertRecord_self, List.append_assoc, List.singleton_append]
    · rw [List.filter_cons_of_neg (by simp [hc]),
        lookupD_insertRecord_other _ _ _ _ (fun he => hc he.symm)]

theorem keys_groupBy_fold (rs : List SlugRecord) (acc : SlugIndex) :
    (rs.foldl (fun a r => insertRecord a r.codename r) acc).map Prod.fst =
      rs.foldl (fun ks r => if r.codename ∈ ks then ks else ks ++ [r.codename])
        (acc.map Prod.fst) := by
  induction rs generalizing acc with
  | nil => rfl
  | cons r rs ih =>
    rw [List.foldl_cons, List.foldl_cons, ih, keys_insertRecord]

theorem keys_groupByCodename (rs : List SlugRecord) :
    (groupByCodename rs).map Prod.fst = uniqueCodenames rs := by
  rw [groupByCodename, uniqueCodenames, keys_groupBy_fold]
  rfl

theorem lookupD_groupByCodename (rs : List SlugRecord) (c : String) :
    lookupD (groupByCodename rs) c = rs.filter (fun r => r.codename == c) := by
  rw [groupByCodename, lookupD_groupBy_fold]
  rfl

/-- Every summary produced by the grouper is the summary of its codename's
filtered group, and that group is nonempty. -/
theorem groupItems_mem_elim (rs : List SlugRecord) (es : EntitySummary)
    (hes : es ∈ groupItemsByCodename rs) :
    es = mkEntitySummary (es.codename,
        rs.filter (fun r => r.codename == es.codename)) ∧
    rs.filter (fun r => r.codename == es.codename) ≠ [] := by
  rw [groupItemsByCodename] at hes
  rcases List.mem_map.mp hes with ⟨⟨c, grp⟩, hp, rfl⟩
  have hcode : (mkEntitySummary (c, grp)).codename = c := rfl
  have hnd : ((groupByCodename rs).map Prod.fst).Nodup := by
    rw [keys_groupByCodename]
    exact uniqueCodenames_nodup rs
  have hgrp : grp = rs.filter (fun r => r.codename == c) := by
    rw [← lookupD_groupByCodename]
    exact (assoc_lookupD_of_mem _ _ _ hnd hp).symm
  have hkey : c ∈ uniqueCodenames rs := by
    rw [← keys_groupByCodename]
    exact List.mem_map.mpr ⟨(c, grp), hp, rfl⟩
  have hne : rs.filter (fun r => r.codename == c) ≠ [] := by
    rw [uniqueCodenames_mem] at hkey
    rcases List.mem_map.mp hkey with ⟨r, hr, hrc⟩
    intro hnil
    have : r ∈ rs.filter (fun r => r.codename == c) :=
      List.mem_filter.mpr ⟨hr, by rw [hrc]; exact beq_self_eq_true c⟩
    rw [hnil] at this
    cases this
  rw [hcode]
  constructor
  · rw [← hgrp]
  · exact hne

/-- Every group reported by the classifier comes from a map entry whose
records span more than one codename, and its items are that entry's grouped
records. -/
theorem findTrueDuplicates_mem_elim (m : SlugIndex) (g : DuplicateGroup)
    (hg : g ∈ findTrueDuplicates m) :
    ∃ rs, (g.slug, rs) ∈ m ∧ g.items = groupItemsByCodename rs ∧
      1 < (uniqueCodenames rs).length := by
  rw [findTrueDuplicates] at hg
  rcases List.mem_map.mp hg with ⟨⟨s, rs⟩, hp, rfl⟩
  rcases List.mem_filter.mp hp with ⟨hpm, hpred⟩
  rw [decide_eq_true_eq] at hpred
  exact ⟨rs, hpm, rfl, hpred⟩

/-- Claim C1: for every slug-index entry, the classifier reports the slug
iff the set of distinct codenames among its records has cardinality at
least 2; a single-codename entry (however many languages) never appears. -/
theorem duplicateClassifier_correct (m : SlugIndex)
    (hkeys : (m.map Prod.fst).Nodup) (s : String) (rs : List SlugRecord)
    (hm : (s, rs) ∈ m) :
    (∃ g ∈ findTrueDuplicates m, g.slug = s) ↔
      2 ≤ (rs.map SlugRecord.codename).toFinset.card := by
  constructor
  · rintro ⟨g, hg, hslug⟩
    rcases findTrueDuplicates_mem_elim m g hg with ⟨rs₂, hmem, _, hlen⟩
    rw [hslug] at hmem
    have heq : rs₂ = rs := assoc_unique m s rs₂ rs hkeys hmem hm
    rw [heq, uniqueCodenames_length] at hlen
    omega
  · intro hcard
    refine ⟨mkDuplicateGroup (s, rs), ?_, rfl⟩
    rw [findTrueDuplicates]
    refine List.mem_map.mpr ⟨(s, rs), List.mem_filter.mpr ⟨hm, ?_⟩, rfl⟩
    rw [decide_eq_true_eq]
    show 1 < (uniqueCodenames rs).length
    rw [uniqueCodenames_length]
    omega

/-- Closed instance of `duplicateClassifier_correct`: slug "contact" shared
by two distinct codenames is reported. -/
theorem duplicateClassifier_correct_witness :
    (∃ g ∈ findTrueDuplicates (buildSlugMap [exItemA, exItemB]),
        g.slug = "contact") ↔
      2 ≤ (([mkSlugRecord exItemA, mkSlugRecord exItemB].map
        SlugRecord.codename).toFinset.card) :=
  duplicateClassifier_correct (buildSlugMap [exItemA, exItemB]) (by decide)
    "contact" [mkSlugRecord exItemA, mkSlugRecord exItemB] (by decide)

/-- Total record count held by a slug index: the sum of the per-slug list
lengths. -/
def sumLens (m : SlugIndex) : Nat := (m.map (fun p => p.2.length)).sum

theorem sumLens_insertRecord (m : SlugIndex) (k : String) (r : SlugRecord) :
    sumLens (insertRecord m k r) = sumLens m + 1 := by
  induction m with
  | nil => simp [insertRecord, sumLens]
  | cons p rest ih =>
    obtain ⟨k₂, rs⟩ := p
    by_cases hk : k₂ = k
    · subst hk
      simp [insertRecord, sumLens]
      omega
    · simp [insertRecord, sumLens, hk] at ih ⊢
      omega

theorem buildSlugMap_sum_fold (items : List PageItem) (acc : SlugIndex) :
    sumLens (items.foldl
      (fun m item =>
        match selectSlug item.elements with
        | none => m
        | some slug => insertRecord m slug (mkSlugRecord item)) acc) =
      sumLens acc + items.countP (fun i => (selectSlug i.elements).isSome) := by
  induction items generalizing acc with
  | nil => simp
  | cons i is ih =>
    simp only [List.foldl_cons]
    cases hs : selectSlug i.elements with
    | none =>
      simp only [hs]
      rw [ih, List.countP_cons_of_neg
        (p := fun i : PageItem => (selectSlug i.elements).isSome)
        _ (by simp [hs])]
    | some s =>
      simp only [hs]
      rw [ih, sumLens_insertRecord, List.countP_cons_of_pos
        (p := fun i : PageItem => (selectSlug i.elements).isSome)
        _ (by simp [hs])]
      omega

theorem hasSlug_eq_selectSlug_isSome (i : PageItem) :
    hasSlug i = (selectSlug i.elements).isSome := by
  rw [hasSlug, truthy, truthy, selectSlug]
  cases h : nval i.elements.url_slug <;> simp [h]

/-- Claim C2: the slug-index builder preserves the total record count — for
any sequence of fetched page items (each carrying a truthy slug, as the
fetcher guarantees), the sum of per-slug list lengths equals the input
length; in particular this holds for the output of
`fetchAllPageItemsWithSlugs` for any fetch collaborator. -/
theorem slugIndexBuilder_preserves_count :
    (∀ items : List PageItem, (∀ i ∈ items, hasSlug i = true) →
        sumLens (buildSlugMap items) = items.length) ∧
    (∀ (langs : List String) (fetch : String → List PageItem),
        sumLens (buildSlugMap (fetchAllPageItemsWithSlugs langs fetch)) =
          (fetchAllPageItemsWithSlugs langs fetch).length) := by
  have hmain : ∀ items : List PageItem, (∀ i ∈ items, hasSlug i = true) →
      sumLens (buildSlugMap items) = items.length := by
    intro items hall
    rw [buildSlugMap, buildSlugMap_sum_fold]
    have hcnt : items.countP (fun i => (selectSlug i.elements).isSome) =
        items.length := by
      rw [List.countP_eq_length]
      intro i hi
      rw [← hasSlug_eq_selectSlug_isSome]
      exact hall i hi
    rw [hcnt]
    simp [sumLens]
  refine ⟨hmain, ?_⟩
  intro langs fetch
  refine hmain _ ?_
  intro i hi
  rw [fetchAllPageItemsWithSlugs] at hi
  rw [List.mem_flatten] at hi
  rcases hi with ⟨l, hl, hil⟩
  rcases List.mem_map.mp hl with ⟨lang, _, rfl⟩
  exact (List.mem_filter.mp hil).2

/-- Closed instance of `slugIndexBuilder_preserves_count` on a concrete
three-record input. -/
theorem slugIndexBuilder_preserves_count_witness :
    sumLens (buildSlugMap [exItemA, exItemB, exItemC]) =
      [exItemA, exItemB, exItemC].length :=
  slugIndexBuilder_preserves_count.1 [exItemA, exItemB, exItemC] (by decide)

/-- Claim C3: every reported true-duplicate group carries exactly one
EntitySummary per distinct codename among the slug's records — the count
equals the number of distinct codenames and is at least 2 — and each
summary takes its name and slugField from the first record of its codename
group while joining the language tags of all records in that group. -/
theorem resultGrouper_spec (m : SlugIndex) (g : DuplicateGroup)
    (hg : g ∈ findTrueDuplicates m) :
    ∃ rs, (g.slug, rs) ∈ m ∧ g.items = groupItemsByCodename rs ∧
      g.items.length = (rs.map SlugRecord.codename).toFinset.card ∧
      2 ≤ g.items.length ∧
      (g.items.map EntitySummary.codename).Nodup ∧
      ∀ es ∈ g.items,
        rs.filter (fun r => r.codename == es.codename) ≠ [] ∧
        es.name = ((rs.filter (fun r => r.codename == es.codename)).headD
          defaultRecord).name ∧
        es.slugField = ((rs.filter (fun r => r.codename == es.codename)).headD
          defaultRecord).slugField ∧
        es.language = String.intercalate ", "
          ((rs.filter (fun r => r.codename == es.codename)).map
            SlugRecord.language) := by
  rcases findTrueDuplicates_mem_elim m g hg with ⟨rs, hmem, hitems, hlen⟩
  have hlens : g.items.length = (uniqueCodenames rs).length := by
    rw [hitems, groupItemsByCodename, List.length_map, ← keys_groupByCodename,
      List.length_map]
  refine ⟨rs, hmem, hitems, ?_, ?_, ?_, ?_⟩
  · rw [hlens, uniqueCodenames_length]
  · rw [hlens]
    omega
  · rw [hitems, groupItemsByCodename, List.map_map]
    have hcomp : (EntitySummary.codename ∘ mkEntitySummary) =
        Prod.fst (α := String) (β := List SlugRecord) :=
      funext (fun p => rfl)
    rw [hcomp, keys_groupByCodename]
    exact uniqueCodenames_nodup rs
  · intro es hes
    rw [hitems] at hes
    obtain ⟨heq, hne⟩ := groupItems_mem_elim rs es hes
    exact ⟨hne, congrArg EntitySummary.name heq,
      congrArg EntitySummary.slugField heq,
      congrArg EntitySummary.language heq⟩

/-- Closed instance of `resultGrouper_spec`: the concrete group for slug
"contact", shared by two entities, has two summaries. -/
theorem resultGrouper_spec_witness :
    2 ≤ (mkDuplicateGroup ("contact",
        [mkSlugRecord exItemA, mkSlugRecord exItemB])).items.length := by
  rcases resultGrouper_spec (buildSlugMap [exItemA, exItemB])
      (mkDuplicateGroup ("contact", [mkSlugRecord exItemA, mkSlugRecord exItemB]))
      (by decide) with ⟨rs, _, _, _, h, _⟩
  exact h

/-- Claim C4 fails on the code: `groupItemsByCodename` joins the language
tags without deduplication, so an input in which the same (codename,
language) pair occurs twice under a slug yields a summary whose underlying
group language list — the list the displayed value joins — contains a
duplicate tag.  Concretely, feeding `exItemA` twice yields the joined value
"en, en". -/
theorem resultGrouper_languages_cex :
    ∃ g ∈ findTrueDuplicates (buildSlugMap [exItemA, exItemA, exItemB]),
      ∃ es ∈ g.items,
        ¬ (((lookupD (buildSlugMap [exItemA, exItemA, exItemB]) g.slug).filter
            (fun r => r.codename == es.codename)).map SlugRecord.language).Nodup ∧
        es.language = String.intercalate ", "
          (((lookupD (buildSlugMap [exItemA, exItemA, exItemB]) g.slug).filter
            (fun r => r.codename == es.codename)).map SlugRecord.language) := by
  decide

/-- Claim C4 amended: provided the records under each slug have pairwise
distinct (codename, language) pairs, every EntitySummary's joined languages
value is the join of a duplicate-free list of tags — the language tags of
its codename group. -/
theorem resultGrouper_languages_nodup (items : List PageItem)
    (hpair : ∀ p ∈ buildSlugMap items,
        ((p.2.map (fun r => (r.codename, r.language))).Nodup))
    (g : DuplicateGroup) (hg : g ∈ findTrueDuplicates (buildSlugMap items))
    (es : EntitySummary) (hes : es ∈ g.items) :
    ∃ rs, (g.slug, rs) ∈ buildSlugMap items ∧
      ((rs.filter (fun r => r.codename == es.codename)).map
        SlugRecord.language).Nodup ∧
      es.language = String.intercalate ", "
        ((rs.filter (fun r => r.codename == es.codename)).map
          SlugRecord.language) := by
  rcases findTrueDuplicates_mem_elim _ g hg with ⟨rs, hmem, hitems, _⟩
  rw [hitems] at hes
  obtain ⟨heq, _⟩ := groupItems_mem_elim rs es hes
  refine ⟨rs, hmem, ?_, congrArg EntitySummary.language heq⟩
  have hprs := hpair (g.slug, rs) hmem
  have hsub : (rs.filter (fun r => r.codename == es.codename)).Sublist rs :=
    List.filter_sublist rs
  have hpairs : ((rs.filter (fun r => r.codename == es.codename)).map
      (fun r => (r.codename, r.language))).Nodup :=
    List.Nodup.sublist (hsub.map _) hprs
  have hmap : (rs.filter (fun r => r.codename == es.codename)).map
      SlugRecord.language =
      ((rs.filter (fun r => r.codename == es.codename)).map
        (fun r => (r.codename, r.language))).map Prod.snd := by
    rw [List.map_map]
    rfl
  rw [hmap]
  refine List.Nodup.map_on ?_ hpairs
  intro x hx y hy hxy
  rcases List.mem_map.mp hx with ⟨rx, hrx, rfl⟩
  rcases List.mem_map.mp hy with ⟨ry, hry, rfl⟩
  have hcx : rx.codename = es.codename :=
    beq_iff_eq.mp (List.mem_filter.mp hrx).2
  have hcy : ry.codename = es.codename :=
    beq_iff_eq.mp (List.mem_filter.mp hry).2
  have hlang : rx.language = ry.language := hxy
  rw [hcx, hcy, hlang]

/-- Closed instance of `resultGrouper_languages_nodup` at a concrete
duplicate-pair-free input. -/
theorem resultGrouper_languages_nodup_witness :
    ∃ rs, (("contact" : String), rs) ∈ buildSlugMap [exItemA, exItemB] ∧
      ((rs.filter (fun r => r.codename ==
          (mkEntitySummary ("article_a", [mkSlugRecord exItemA])).codename)).map
        SlugRecord.language).Nodup ∧
      (mkEntitySummary ("article_a", [mkSlugRecord exItemA])).language =
        String.intercalate ", "
          ((rs.filter (fun r => r.codename ==
            (mkEntitySummary ("article_a", [mkSlugRecord exItemA])).codename)).map
            SlugRecord.language) :=
  resultGrouper_languages_nodup [exItemA, exItemB] (by decide)
    (mkDuplicateGroup ("contact", [mkSlugRecord exItemA, mkSlugRecord exItemB]))
    (by decide) (mkEntitySummary ("article_a", [mkSlugRecord exItemA]))
    (by decide)

/-- Claim C9: the slug extractor checks the primary candidate field before
the secondary one and takes the first non-empty value, recording which
field matched; a primary field that is present but holds the empty string
is treated as absent, so the secondary field's value is selected and
`slugField` records the secondary field. -/
theorem slugExtractor_empty_primary :
    (∀ (item : PageItem) (lang v : String),
        item.elements.url_slug = some v → v ≠ "" →
        (formatSDKItem item lang).slug = v ∧
        (formatSDKItem item lang).slugField = "url_slug" ∧
        selectSlug item.elements = some v ∧
        (mkSlugRecord item).slugField = "url_slug") ∧
    (∀ (item : PageItem) (lang s : String),
        item.elements.url_slug = some "" → item.elements.slug = some s →
        s ≠ "" →
        (formatSDKItem item lang).slug = s ∧
        (formatSDKItem item lang).slugField = "slug" ∧
        selectSlug item.elements = some s ∧
        (mkSlugRecord item).slugField = "slug") := by
  constructor
  · intro item lang v hp hv
    have hn : nval item.elements.url_slug = some v := by
      rw [hp]
      simp [nval, hv]
    refine ⟨?_, ?_, ?_, ?_⟩ <;>
      simp [formatSDKItem, selectSlug, mkSlugRecord, truthy, hn]
  · intro item lang s hp hq hs
    have hn : nval item.elements.url_slug = none := by
      rw [hp]
      simp [nval]
    have hm : nval item.elements.slug = some s := by
      rw [hq]
      simp [nval, hs]
    refine ⟨?_, ?_, ?_, ?_⟩ <;>
      simp [formatSDKItem, selectSlug, mkSlugRecord, truthy, hn, hm]

/-- Closed instance of `slugExtractor_empty_primary`: an item with empty
primary field and secondary value "home" selects "home" via the secondary
field. -/
theorem slugExtractor_empty_primary_witness :
    (formatSDKItem exItemC "en").slug = "home" ∧
    (formatSDKItem exItemC "en").slugField = "slug" ∧
    selectSlug exItemC.elements = some "home" ∧
    (mkSlugRecord exItemC).slugField = "slug" :=
  slugExtractor_empty_primary.2 exItemC "en" "home" rfl rfl (by decide)
